import Mathlib

set_option linter.unusedVariables false

namespace CParser

/-! Shallow embedding of the C-header binding generator: lexical tokenizer,
    top-level statement segmenter, declaration classifier, type catalog and
    dependency resolver/emitter, translated from the program's source.
    ASCII source text is modelled as a list of characters; tokens are strings.
    Paths that the source handles with a panic (`unreachable!`, index
    underflow) are modelled as explicit error outcomes so that reachability
    of those paths is provable. -/

def isWhite (c : Char) : Bool :=
  c == ' ' || c == '\t' || c == '\r' || c == '\n'

def isIdentChar (c : Char) : Bool :=
  c == '_' || ('a' ≤ c && c ≤ 'z') || ('A' ≤ c && c ≤ 'Z') || ('0' ≤ c && c ≤ '9')

def isAlphaUnd (c : Char) : Bool :=
  c == '_' || ('a' ≤ c && c ≤ 'z') || ('A' ≤ c && c ≤ 'Z')

def isDigitB (c : Char) : Bool := '0' ≤ c && c ≤ '9'

def isNumChar (c : Char) : Bool := isDigitB c || c == '.'

/-- Panic outcomes of `Tokenizer::string`, `Tokenizer::character` and the
    final `unreachable!()` arm of `Tokenizer::next`. -/
inductive TokPanic
  | unterminatedString
  | unterminatedChar
  | unknownByte
deriving DecidableEq

/-- The scan loop shared by `Tokenizer::string` and `Tokenizer::character`:
    consume bytes, a backslash always sets the mask, a masked byte is skipped,
    an unmasked quote `q` ends the literal.  Running out of input is the
    source's `unreachable!()`, modelled as `none`. -/
def scanLit (q : Char) : Bool → List Char → Option (List Char × List Char)
  | _, [] => none
  | mask, c :: cs =>
    if c == '\\' then
      match scanLit q true cs with
      | some (t, r) => some (c :: t, r)
      | none => none
    else if mask then
      match scanLit q false cs with
      | some (t, r) => some (c :: t, r)
      | none => none
    else if c == q then
      some ([c], cs)
    else
      match scanLit q false cs with
      | some (t, r) => some (c :: t, r)
      | none => none

/-- One step of `Tokenizer::next`: skip whitespace, then classify by the
    first byte with one-character lookahead for multi-character operators.
    Returns the token and the remaining input, `none` at end of input, or a
    `TokPanic` on the source's panicking paths. -/
def nextToken (s : List Char) : Except TokPanic (Option (String × List Char)) :=
  match s.dropWhile isWhite with
  | [] => .ok none
  | c :: rest =>
    if c == ';' || c == ',' || c == '\x7b' || c == '\x7d' || c == '[' || c == ']' ||
        c == '(' || c == ')' || c == '?' || c == ':' then
      .ok (some (String.mk [c], rest))
    else if c == '.' then
      match rest with
      | '.' :: '.' :: r => .ok (some (String.mk [c, '.', '.'], r))
      | _ => .ok (some (String.mk [c], rest))
    else if c == '*' || c == '^' || c == '!' || c == '=' || c == '/' then
      match rest with
      | '=' :: r => .ok (some (String.mk [c, '='], r))
      | _ => .ok (some (String.mk [c], rest))
    else if c == '&' || c == '|' || c == '+' then
      match rest with
      | c2 :: r =>
        if c2 == '=' || c2 == c then .ok (some (String.mk [c, c2], r))
        else .ok (some (String.mk [c], rest))
      | [] => .ok (some (String.mk [c], rest))
    else if c == '<' || c == '>' then
      match rest with
      | c2 :: r =>
        if c2 == '=' then .ok (some (String.mk [c, c2], r))
        else if c2 == c then
          match r with
          | '=' :: r2 => .ok (some (String.mk [c, c2, '='], r2))
          | _ => .ok (some (String.mk [c, c2], r))
        else .ok (some (String.mk [c], rest))
      | [] => .ok (some (String.mk [c], rest))
    else if c == '-' then
      match rest with
      | c2 :: r =>
        if c2 == '>' || c2 == '-' || c2 == '=' then .ok (some (String.mk [c, c2], r))
        else .ok (some (String.mk [c], rest))
      | [] => .ok (some (String.mk [c], rest))
    else if isAlphaUnd c then
      match rest.span isIdentChar with
      | (t, r) => .ok (some (String.mk (c :: t), r))
    else if isDigitB c then
      match rest.span isNumChar with
      | (t, r) => .ok (some (String.mk (c :: t), r))
    else if c == '"' then
      match scanLit '"' false rest with
      | some (t, r) => .ok (some (String.mk (c :: t), r))
      | none => .error .unterminatedString
    else if c == '\'' then
      match scanLit '\'' false rest with
      | some (t, r) => .ok (some (String.mk (c :: t), r))
      | none => .error .unterminatedChar
    else
      .error .unknownByte

/-- Iterate `nextToken`; the fuel only bounds the iteration (each step
    consumes at least one character, so `length + 1` always suffices). -/
def tokenizeAux : Nat → List Char → Except TokPanic (List String)
  | 0, _ => .ok []
  | fuel + 1, s =>
    match nextToken s with
    | .error e => .error e
    | .ok none => .ok []
    | .ok (some (t, r)) =>
      match tokenizeAux fuel r with
      | .error e => .error e
      | .ok ts => .ok (t :: ts)

/-- The full token stream of a source text (the `Iterator` of the source). -/
def tokenize (s : String) : Except TokPanic (List String) :=
  tokenizeAux (s.length + 1) s.toList

/-- Struct member record of the source: identifier, base type text, optional
    array-dimension text. -/
structure Member where
  ident : String
  type_ : String
  dims : Option String
deriving DecidableEq

/-- Enum value record of the source: identifier and optional explicit value text. -/
structure Value where
  ident : String
  value : Option String
deriving DecidableEq

/-- Classified definition stored in the catalog (the source's `Stmt`). -/
inductive Stmt
  | aliasDef (target : String)
  | enumDef (values : List Value)
  | structDef (members : List Member)
deriving DecidableEq

/-- Join tokens with a tilde separator, the source's `join("~")`. -/
def joinTilde (l : List String) : String := String.intercalate "~" l

/-- Recognizer `try_parse_struct`: a `struct` keyword, an optional tag, and a
    braced body. -/
def tryParseStruct (stmt : List String) : Option (Option String × List String) :=
  match stmt with
  | "struct" :: "\x7b" :: rest =>
    if rest.getLast? == some "\x7d" then some (none, rest.dropLast) else none
  | "struct" :: tag :: "\x7b" :: rest =>
    if rest.getLast? == some "\x7d" then some (some tag, rest.dropLast) else none
  | _ => none

/-- Recognizer `try_parse_enum`: an `enum` keyword, an optional tag, and a
    braced body. -/
def tryParseEnum (stmt : List String) : Option (Option String × List String) :=
  match stmt with
  | "enum" :: "\x7b" :: rest =>
    if rest.getLast? == some "\x7d" then some (none, rest.dropLast) else none
  | "enum" :: tag :: "\x7b" :: rest =>
    if rest.getLast? == some "\x7d" then some (some tag, rest.dropLast) else none
  | _ => none

/-- Recognizer `try_parse_member`.  The source indexes `stmt[pos - 1]` where `pos` is
    the position of the first `"["`; with `pos = 0` the `usize` subtraction
    underflows and the program panics, modelled as `.error`. -/
def tryParseMember (stmt : List String) : Except String (Option Member) :=
  match stmt with
  | [] => .ok none
  | _ =>
    if stmt.getLast? == some "]" then
      match stmt.findIdx? (· == "[") with
      | some pos =>
        if pos == 0 then
          .error "try_parse_member: index underflow"
        else
          .ok (some ⟨stmt.getD (pos - 1) "", joinTilde (stmt.take (pos - 1)),
                some (joinTilde ((stmt.drop (pos + 1)).dropLast))⟩)
      | none => .ok none
    else
      match stmt.getLast? with
      | some idn => .ok (some ⟨idn, joinTilde stmt.dropLast, none⟩)
      | none => .ok none

/-- Member collection of `parse_members`: parse each field, dropping the ones
    that yield nothing and propagating a panic. -/
def collectMembers : List (List String) → Except String (List Member)
  | [] => .ok []
  | f :: fs =>
    match tryParseMember f with
    | .error e => .error e
    | .ok none => collectMembers fs
    | .ok (some m) =>
      match collectMembers fs with
      | .error e => .error e
      | .ok ms => .ok (m :: ms)

/-- Splitter `parse_members`: split the body on every `";"` token and collect. -/
def parseMembers (stmt : List String) : Except String (List Member) :=
  collectMembers (stmt.splitOn ";")

/-- Recognizer `try_parse_value`: a name with an optional explicit value after an equals sign. -/
def tryParseValue (stmt : List String) : Option Value :=
  match stmt with
  | name :: "=" :: rest => some ⟨name, some (joinTilde rest)⟩
  | [name] => some ⟨name, none⟩
  | _ => none

/-- Splitter `parse_values`: split the body on every `","` token and collect. -/
def parseValues (stmt : List String) : List Value :=
  (stmt.splitOn ",").filterMap tryParseValue

/-- Recognizer `try_parse_typedef`: a leading `typedef` keyword; the name is the last token. -/
def tryParseTypedef (stmt : List String) : Option (String × List String) :=
  match stmt with
  | "typedef" :: rest =>
    match rest.getLast? with
    | some name => some (name, rest.dropLast)
    | none => none
  | _ => none

/-- Recognizer `try_parse_function`.  The source indexes `stmt[..pos - 1]` and
    `stmt[pos - 1]` where `pos` is the position of the first `"("`; with
    `pos = 0` the subtraction underflows and the program panics. -/
def tryParseFunction (stmt : List String) :
    Except String (Option (List String × String × List String)) :=
  if stmt.getLast? == some ")" then
    match stmt.findIdx? (· == "(") with
    | some pos =>
      if pos == 0 then
        .error "try_parse_function: index underflow"
      else
        .ok (some (stmt.take (pos - 1), stmt.getD (pos - 1) "",
              (stmt.drop (pos + 1)).dropLast))
    | none => .ok none
  else .ok none

/-- Recognizer `try_parse_function_type`: exactly four parenthesis tokens. -/
def tryParseFunctionType (stmt : List String) :
    Option (List String × String × List String) :=
  if stmt.getLast? == some ")" then
    match (stmt.enum.filter (fun p => p.2 == "(" || p.2 == ")")) with
    | [(a, _), (b, _), (c, _), (d, _)] =>
      some (stmt.take a, stmt.getD (b - 1) "", (stmt.drop (c + 1)).take (d - (c + 1)))
    | _ => none
  else none

/-- Recognizer `try_parse_decl`: a leading `__pragma` or `__declspec` marker. -/
def tryParseDecl (stmt : List String) : Option (List String) :=
  match stmt with
  | "__pragma" :: _ => some stmt
  | "__declspec" :: _ => some stmt
  | _ => none

/-- Recognizer `try_parse_extern`: a leading `extern` keyword. -/
def tryParseExtern (stmt : List String) : Option (List String) :=
  match stmt with
  | "extern" :: rest => some rest
  | _ => none

/-- The type catalog: name/definition pairs with unique names, in first
    insertion order (the content of the source's `HashMap<String, Stmt>`). -/
abbrev Catalog := List (String × Stmt)

/-- Insertion with `HashMap::insert` semantics: overwrite an existing key, otherwise append. -/
def catInsert (c : Catalog) (k : String) (v : Stmt) : Catalog :=
  if c.any (fun p => p.1 == k) then
    c.map (fun p => if p.1 == k then (k, v) else p)
  else c ++ [(k, v)]

/-- Classifier `parse_statement`: strip one trailing `";"`, then try the recognizers in
    order.  Returns the updated catalog and any `print_stmt` diagnostic, or
    `.error` when a recognizer panics. -/
def parseStatement (stmt0 : List String) (types : Catalog) :
    Except String (Catalog × List (List String)) :=
  let stmt := if stmt0.getLast? == some ";" then stmt0.dropLast else stmt0
  match tryParseTypedef stmt with
  | some (name, typedef) =>
    match tryParseStruct typedef with
    | some (_, members) =>
      match parseMembers members with
      | .error e => .error e
      | .ok ms => .ok (catInsert types name (Stmt.structDef ms), [])
    | none =>
      match tryParseEnum typedef with
      | some (_, values) => .ok (catInsert types name (Stmt.enumDef (parseValues values)), [])
      | none =>
        match tryParseFunctionType (stmt.drop 1) with
        | some _ => .ok (types, [])
        | none => .ok (catInsert types name (Stmt.aliasDef (joinTilde typedef)), [])
  | none =>
    match tryParseStruct stmt with
    | some _ => .ok (types, [])
    | none =>
      match tryParseFunction stmt with
      | .error e => .error e
      | .ok (some _) => .ok (types, [])
      | .ok none =>
        match tryParseDecl stmt with
        | some _ => .ok (types, [])
        | none =>
          match tryParseExtern stmt with
          | some _ => .ok (types, [])
          | none => .ok (types, [stmt])

/-- Tokens that increment the segmenter's nesting balance. -/
def isOpen (t : String) : Bool := t == "\x7b" || t == "[" || t == "("

/-- Tokens that decrement the segmenter's nesting balance. -/
def isClose (t : String) : Bool := t == "\x7d" || t == "]" || t == ")"

/-- The compiler-directive markers recognized by the segmenter. -/
def isDirective (t : String) : Bool := t == "__pragma" || t == "__declspec"

/-- The segmenter's loop state: the signed nesting balance, the statement
    buffer, and every completed statement in order of completion. -/
structure SegState where
  balance : Int
  statement : List String
  stmts : List (List String)
deriving DecidableEq

/-- One iteration of the segmenter loop in `parse`: push the token, adjust
    the balance; a closer returning the balance to zero completes a
    directive-initial statement, a `";"` at balance zero completes any
    statement. -/
def segStep (st : SegState) (tok : String) : SegState :=
  let stmt := st.statement ++ [tok]
  if isOpen tok then
    ⟨st.balance + 1, stmt, st.stmts⟩
  else if isClose tok then
    if st.balance - 1 = 0 ∧ isDirective (stmt.headD "") then
      ⟨st.balance - 1, [], st.stmts ++ [stmt]⟩
    else
      ⟨st.balance - 1, stmt, st.stmts⟩
  else if tok = ";" ∧ st.balance = 0 then
    ⟨st.balance, [], st.stmts ++ [stmt]⟩
  else
    ⟨st.balance, stmt, st.stmts⟩

/-- Run the segmenter over a token sequence from the initial state. -/
def segment (toks : List String) : SegState :=
  toks.foldl segStep ⟨0, [], []⟩

/-- One line of resolver output: an emitted declaration or the
    `Not found:` (undefined referenced type) diagnostic. -/
inductive Event
  | emitAlias (name target : String)
  | emitEnum (name : String) (values : List Value)
  | emitStruct (name : String) (members : List Member)
  | notFound (name : String)
deriving DecidableEq

/-- The name an event concerns. -/
def Event.nameOf : Event → String
  | .emitAlias n _ => n
  | .emitEnum n _ => n
  | .emitStruct n _ => n
  | .notFound n => n

def evNames (evs : List Event) : List String := evs.map Event.nameOf

/-- The member loop of the `Stmt::Struct` arm of `lookup`: resolve each
    member's base type in order, threading the visited set and
    concatenating output; return values of the inner calls are ignored. -/
def resolveMembers (rec : String → List String → List String × List Event) :
    List Member → List String → List String × List Event
  | [], known => (known, [])
  | m :: ms, known =>
    ((resolveMembers rec ms (rec m.type_ known).1).1,
     (rec m.type_ known).2 ++ (resolveMembers rec ms (rec m.type_ known).1).2)

/-- Resolver `lookup(name, types, known)`: return early when `name` is visited,
    otherwise mark it visited, then emit according to the catalog entry
    (resolving a struct's member types first) or emit the not-found
    diagnostic and fail.  Recursion depth is bounded by the visited-set
    growth; `fuel` makes that bound explicit (any
    `fuel > ` number of catalog entries suffices). -/
def lookupFuel : Nat → String → Catalog → List String → Bool × List String × List Event
  | 0, _, _, known => (false, known, [])
  | fuel + 1, name, types, known =>
    if name ∈ known then
      (true, known, [])
    else
      match types.lookup name with
      | some (Stmt.aliasDef t) => (true, name :: known, [Event.emitAlias name t])
      | some (Stmt.enumDef vs) => (true, name :: known, [Event.emitEnum name vs])
      | some (Stmt.structDef ms) =>
        (true,
         (resolveMembers
           (fun n k => ((lookupFuel fuel n types k).2.1, (lookupFuel fuel n types k).2.2))
           ms (name :: known)).1,
         (resolveMembers
           (fun n k => ((lookupFuel fuel n types k).2.1, (lookupFuel fuel n types k).2.2))
           ms (name :: known)).2 ++ [Event.emitStruct name ms])
      | none => (false, name :: known, [Event.notFound name])

/-- The emission loop of `main`: `for k in types.keys() { lookup(k, ...) }`,
    with the key iteration order (unspecified for a `HashMap`) passed
    explicitly. -/
def runEmit (keyOrder : List String) (types : Catalog) : List Event :=
  (keyOrder.foldl
    (fun (acc : List String × List Event) k =>
      match lookupFuel (types.length + 1) k types acc.1 with
      | (_, k2, e2) => (k2, acc.2 ++ e2))
    ([], [])).2

/-- An event is consistent with the catalog it was produced from. -/
def evOk (types : Catalog) : Event → Prop
  | .emitAlias n t => types.lookup n = some (Stmt.aliasDef t)
  | .emitEnum n vs => types.lookup n = some (Stmt.enumDef vs)
  | .emitStruct n ms => types.lookup n = some (Stmt.structDef ms)
  | .notFound n => types.lookup n = none

/-- Invariant of one resolver call that started with visited set `known`
    and finished with visited set `k`, producing `evs`: the visited set only
    grows, it grows exactly by the names of the produced events, event names
    are fresh and pairwise distinct, and each event matches the catalog. -/
structure LookupInv (types : Catalog) (known k : List String) (evs : List Event) : Prop where
  mono : known ⊆ k
  mem_iff : ∀ n, n ∈ k ↔ (n ∈ known ∨ n ∈ evNames evs)
  nodup : (evNames evs).Nodup
  fresh : ∀ x ∈ evNames evs, x ∉ known
  ok : ∀ e ∈ evs, evOk types e

/-- Modelled from the spec: splitting a token list on separators that occur
    at bracket depth zero only ("top-level" separators); used to compare the
    source's member splitting against the spec's description of it. -/
def splitTopLevelAux (sep : String) : List String → Int → List String → List (List String)
  | [], _, acc => [acc.reverse]
  | t :: ts, d, acc =>
    if d = 0 ∧ t = sep then
      acc.reverse :: splitTopLevelAux sep ts d []
    else if isOpen t then
      splitTopLevelAux sep ts (d + 1) (t :: acc)
    else if isClose t then
      splitTopLevelAux sep ts (d - 1) (t :: acc)
    else
      splitTopLevelAux sep ts d (t :: acc)

def splitTopLevel (sep : String) (l : List String) : List (List String) :=
  splitTopLevelAux sep l 0 []

/-- A two-struct catalog whose members reference each other in a cycle. -/
def cyc : Catalog :=
  [("A", Stmt.structDef [⟨"x", "B", none⟩]), ("B", Stmt.structDef [⟨"y", "A", none⟩])]

/-- A one-struct catalog whose member base type is absent. -/
def missCat : Catalog := [("S", Stmt.structDef [⟨"a", "Missing", none⟩])]

/-- A two-alias catalog with independent entries. -/
def catAB : Catalog := [("A", Stmt.aliasDef "x"), ("B", Stmt.aliasDef "y")]

/-! ### Segmenter lemmas -/

theorem evNames_append (e1 e2 : List Event) :
    evNames (e1 ++ e2) = evNames e1 ++ evNames e2 := by
  simp [evNames]

theorem segStep_concat (st : SegState) (tok : String) :
    (segStep st tok).stmts.flatten ++ (segStep st tok).statement
      = st.stmts.flatten ++ st.statement ++ [tok] := by
  simp only [segStep]
  split_ifs <;> simp [List.flatten_append, List.append_assoc]

theorem segment_concat (toks : List String) :
    ∀ st : SegState,
      (toks.foldl segStep st).stmts.flatten ++ (toks.foldl segStep st).statement
        = st.stmts.flatten ++ st.statement ++ toks := by
  induction toks with
  | nil => intro st; simp
  | cons t ts ih =>
    intro st
    simp only [List.foldl_cons]
    rw [ih (segStep st t), segStep_concat]
    simp [List.append_assoc]

/-! ### Resolver invariant lemmas -/

theorem lookupInv_nil (types : Catalog) (known : List String) :
    LookupInv types known known [] := by
  refine ⟨fun x hx => hx, ?_, ?_, ?_, ?_⟩
  · intro n; simp [evNames]
  · simp [evNames]
  · intro x hx; simp [evNames] at hx
  · intro e he; simp at he

theorem lookupInv_trans (types : Catalog) (known k1 k2 : List String)
    (e1 e2 : List Event) (h1 : LookupInv types known k1 e1)
    (h2 : LookupInv types k1 k2 e2) : LookupInv types known k2 (e1 ++ e2) := by
  refine ⟨h1.mono.trans h2.mono, ?_, ?_, ?_, ?_⟩
  · intro n
    rw [h2.mem_iff n, h1.mem_iff n, evNames_append, List.mem_append]
    exact or_assoc
  · rw [evNames_append]
    refine h1.nodup.append h2.nodup ?_
    intro x hx1 hx2
    exact h2.fresh x hx2 ((h1.mem_iff x).mpr (Or.inr hx1))
  · intro x hx
    rw [evNames_append, List.mem_append] at hx
    rcases hx with hx | hx
    · exact h1.fresh x hx
    · intro hk
      exact h2.fresh x hx (h1.mono hk)
  · intro e he
    rcases List.mem_append.mp he with he | he
    · exact h1.ok e he
    · exact h2.ok e he

theorem lookupInv_single (types : Catalog) (known : List String) (e : Event)
    (hfresh : Event.nameOf e ∉ known) (hok : evOk types e) :
    LookupInv types known (Event.nameOf e :: known) [e] := by
  refine ⟨fun x hx => List.mem_cons_of_mem _ hx, ?_, ?_, ?_, ?_⟩
  · intro n
    simp only [evNames, List.map_cons, List.map_nil, List.mem_singleton, List.mem_cons]
    tauto
  · simp [evNames]
  · intro x hx
    simp only [evNames, List.map_cons, List.map_nil, List.mem_singleton] at hx
    subst hx
    exact hfresh
  · intro ev hev
    simp only [List.mem_singleton] at hev
    subst hev
    exact hok

theorem resolveMembers_inv (types : Catalog)
    (rec : String → List String → List String × List Event)
    (hrec : ∀ n k, LookupInv types k (rec n k).1 (rec n k).2) :
    ∀ (ms : List Member) (known : List String),
      LookupInv types known (resolveMembers rec ms known).1
        (resolveMembers rec ms known).2 := by
  intro ms
  induction ms with
  | nil =>
    intro known
    simpa only [resolveMembers] using lookupInv_nil types known
  | cons m ms ih =>
    intro known
    simpa only [resolveMembers] using
      lookupInv_trans types known _ _ _ _ (hrec m.type_ known) (ih (rec m.type_ known).1)

theorem resolveMembers_mem (types : Catalog)
    (rec : String → List String → List String × List Event)
    (hrec : ∀ n k, LookupInv types k (rec n k).1 (rec n k).2)
    (hself : ∀ n k, n ∈ (rec n k).1) :
    ∀ (ms : List Member) (known : List String) (m : Member), m ∈ ms →
      m.type_ ∈ (resolveMembers rec ms known).1 := by
  intro ms
  induction ms with
  | nil =>
    intro known m hm
    exact absurd hm (List.not_mem_nil m)
  | cons m0 ms ih =>
    intro known m hm
    rcases List.mem_cons.mp hm with h | h
    · subst h
      simp only [resolveMembers]
      exact (resolveMembers_inv types rec hrec ms _).mono (hself m.type_ known)
    · simp only [resolveMembers]
      exact ih _ m h

theorem lookupFuel_inv (types : Catalog) :
    ∀ (fuel : Nat) (name : String) (known : List String),
      LookupInv types known (lookupFuel fuel name types known).2.1
        (lookupFuel fuel name types known).2.2 := by
  intro fuel
  induction fuel with
  | zero =>
    intro name known
    simpa only [lookupFuel] using lookupInv_nil types known
  | succ f ih =>
    intro name known
    by_cases hk : name ∈ known
    · simpa only [lookupFuel, if_pos hk] using lookupInv_nil types known
    · cases hlk : types.lookup name with
      | none =>
        simpa only [lookupFuel, if_neg hk, hlk] using
          lookupInv_single types known (Event.notFound name) hk hlk
      | some s =>
        cases s with
        | aliasDef t =>
          simpa only [lookupFuel, if_neg hk, hlk] using
            lookupInv_single types known (Event.emitAlias name t) hk hlk
        | enumDef vs =>
          simpa only [lookupFuel, if_neg hk, hlk] using
            lookupInv_single types known (Event.emitEnum name vs) hk hlk
        | structDef ms =>
          have hr := resolveMembers_inv types
            (fun n k => ((lookupFuel f n types k).2.1, (lookupFuel f n types k).2.2))
            (fun n k => ih n k) ms (name :: known)
          simp only [lookupFuel, if_neg hk, hlk]
          refine ⟨?_, ?_, ?_, ?_, ?_⟩
          · exact fun x hx => hr.mono (List.mem_cons_of_mem _ hx)
          · intro n
            rw [hr.mem_iff n, evNames_append, List.mem_append, List.mem_cons]
            simp only [evNames, List.map_cons, List.map_nil, Event.nameOf,
              List.mem_singleton]
            tauto
          · rw [evNames_append]
            refine hr.nodup.append ?_ ?_
            · simp [evNames]
            · intro x hx1 hx2
              simp only [evNames, List.map_cons, List.map_nil, Event.nameOf,
                List.mem_singleton] at hx2
              subst hx2
              exact hr.fresh _ hx1 (List.mem_cons_self _ _)
          · intro x hx
            rw [evNames_append, List.mem_append] at hx
            rcases hx with hx | hx
            · intro hkx
              exact hr.fresh x hx (List.mem_cons_of_mem _ hkx)
            · simp only [evNames, List.map_cons, List.map_nil, Event.nameOf,
                List.mem_singleton] at hx
              subst hx
              exact hk
          · intro e he
            rcases List.mem_append.mp he with he | he
            · exact hr.ok e he
            · simp only [List.mem_singleton] at he
              subst he
              exact hlk

theorem lookupFuel_mem_self (types : Catalog) (f : Nat) (hf : 0 < f)
    (name : String) (known : List String) :
    name ∈ (lookupFuel f name types known).2.1 := by
  cases f with
  | zero => exact absurd hf (by simp)
  | succ g =>
    by_cases hk : name ∈ known
    · simpa only [lookupFuel, if_pos hk] using hk
    · cases hlk : types.lookup name with
      | none =>
        simp only [lookupFuel, if_neg hk, hlk]
        exact List.mem_cons_self _ _
      | some s =>
        cases s with
        | aliasDef t =>
          simp only [lookupFuel, if_neg hk, hlk]
          exact List.mem_cons_self _ _
        | enumDef vs =>
          simp only [lookupFuel, if_neg hk, hlk]
          exact List.mem_cons_self _ _
        | structDef ms =>
          simp only [lookupFuel, if_neg hk, hlk]
          exact (resolveMembers_inv types _
            (fun n k => lookupFuel_inv types g n k) ms (name :: known)).mono
            (List.mem_cons_self _ _)

/-! ### Claim theorems -/

/-- C1 counterexample: the token sequence `["a"]` has balanced (uniformly
    zero) top-level nesting, yet the segmenter produces no statement at all,
    so the concatenation of the produced statements — with or without
    terminator tokens ignored — does not reproduce the input token. -/
theorem segmenter_claim_counterexample :
    (segment ["a"]).balance = 0 ∧ (segment ["a"]).stmts = [] ∧
    (segment ["a"]).stmts.flatten.filter (fun t => !(t == ";"))
      ≠ ["a"].filter (fun t => !(t == ";")) := by
  refine ⟨rfl, rfl, ?_⟩
  decide

/-- C1 (amended): whenever the segmenter's statement buffer is empty after
    consuming the whole input — that is, the input ends at a statement
    boundary — concatenating the tokens of all produced statements
    reproduces every input token exactly once, in original order.  (The
    completion rules — a `";"` at balance zero, or, for statements whose
    first token is `__pragma`/`__declspec`, a closing bracket returning the
    balance to zero — are the two clearing branches of `segStep`.) -/
theorem segmenter_reproduces_tokens (toks : List String)
    (h : (segment toks).statement = []) :
    (segment toks).stmts.flatten = toks := by
  have hc := segment_concat toks ⟨0, [], []⟩
  simp only [segment] at h
  rw [h, List.append_nil] at hc
  simpa [segment] using hc

/-- Witness for the amended C1 theorem on an input exercising both
    completion rules. -/
theorem segmenter_reproduces_tokens_witness :
    (segment ["__pragma", "(", "x", ")", "a", ";"]).statement = [] ∧
    (segment ["__pragma", "(", "x", ")", "a", ";"]).stmts.flatten
      = ["__pragma", "(", "x", ")", "a", ";"] :=
  ⟨by decide, segmenter_reproduces_tokens ["__pragma", "(", "x", ")", "a", ";"] (by decide)⟩

/-- C2: a resolved name is in the visited set after the first call; a second
    call on the same name returns success immediately with no output at all;
    the event names of any single call are pairwise distinct (so no name is
    ever emitted twice within a call either, hence on a cyclic struct graph
    every declaration is emitted exactly once); a fresh resolvable name gets
    exactly one event; and every event matches the catalog entry it reports. -/
theorem resolver_emits_each_name_once (f1 f2 : Nat) (name : String)
    (types : Catalog) (known : List String) (h1 : 0 < f1) (h2 : 0 < f2) :
    name ∈ (lookupFuel f1 name types known).2.1 ∧
    lookupFuel f2 name types (lookupFuel f1 name types known).2.1
      = (true, (lookupFuel f1 name types known).2.1, []) ∧
    (evNames (lookupFuel f1 name types known).2.2).Nodup ∧
    (name ∉ known → (evNames (lookupFuel f1 name types known).2.2).count name = 1) ∧
    (∀ e ∈ (lookupFuel f1 name types known).2.2, evOk types e) := by
  have hmem := lookupFuel_mem_self types f1 h1 name known
  have hinv := lookupFuel_inv types f1 name known
  refine ⟨hmem, ?_, hinv.nodup, ?_, hinv.ok⟩
  · cases f2 with
    | zero => exact absurd h2 (by simp)
    | succ g2 => simp only [lookupFuel, if_pos hmem]
  · intro hnk
    have hm : name ∈ evNames (lookupFuel f1 name types known).2.2 := by
      rcases (hinv.mem_iff name).mp hmem with h | h
      · exact absurd h hnk
      · exact h
    exact List.count_eq_one_of_mem hinv.nodup hm

/-- Witness for C2 on the cyclic two-struct catalog: resolving `A` twice
    emits nothing the second time, and `A` got exactly one event. -/
theorem resolver_emits_each_name_once_witness :
    0 < 3 ∧
    "A" ∈ (lookupFuel 3 "A" cyc []).2.1 ∧
    lookupFuel 3 "A" cyc (lookupFuel 3 "A" cyc []).2.1
      = (true, (lookupFuel 3 "A" cyc []).2.1, []) ∧
    (evNames (lookupFuel 3 "A" cyc []).2.2).count "A" = 1 :=
  have h := resolver_emits_each_name_once 3 3 "A" cyc [] (by decide) (by decide)
  ⟨by decide, h.1, h.2.1, h.2.2.2.1 (by decide)⟩

/-- C3: resolving a struct one of whose member base types is absent from the
    catalog (and unvisited) succeeds, still emits the struct's own
    declaration with its member list verbatim, produces exactly one event
    for the missing type, every event for the missing type is the not-found
    (undefined referenced type) diagnostic, and resolving the missing name
    itself returns failure (without aborting: the function is total). -/
theorem resolver_missing_member_type (f : Nat) (name : String) (types : Catalog)
    (known : List String) (ms : List Member) (m : Member)
    (hf : 2 ≤ f) (hname : types.lookup name = some (Stmt.structDef ms)) (hm : m ∈ ms)
    (hmiss : types.lookup m.type_ = none) (hnk : name ∉ known) (hmk : m.type_ ∉ known) :
    (lookupFuel f name types known).1 = true ∧
    Event.emitStruct name ms ∈ (lookupFuel f name types known).2.2 ∧
    (evNames (lookupFuel f name types known).2.2).count m.type_ = 1 ∧
    (∀ e ∈ (lookupFuel f name types known).2.2,
      Event.nameOf e = m.type_ → e = Event.notFound m.type_) ∧
    (lookupFuel f m.type_ types known).1 = false := by
  obtain ⟨g, rfl⟩ : ∃ g, f = g + 1 := ⟨f - 1, by omega⟩
  have hg : 0 < g := by omega
  have hinv := lookupFuel_inv types (g + 1) name known
  have hmemty : m.type_ ∈ (lookupFuel (g + 1) name types known).2.1 := by
    simp only [lookupFuel, if_neg hnk, hname]
    exact resolveMembers_mem types _ (fun n k => lookupFuel_inv types g n k)
      (fun n k => lookupFuel_mem_self types g hg n k) ms (name :: known) m hm
  have hmnames : m.type_ ∈ evNames (lookupFuel (g + 1) name types known).2.2 := by
    rcases (hinv.mem_iff m.type_).mp hmemty with h | h
    · exact absurd h hmk
    · exact h
  refine ⟨?_, ?_, ?_, ?_, ?_⟩
  · simp only [lookupFuel, if_neg hnk, hname]
  · simp only [lookupFuel, if_neg hnk, hname]
    exact List.mem_append_right _ (List.mem_singleton_self _)
  · exact List.count_eq_one_of_mem hinv.nodup hmnames
  · intro e he hen
    have hok := hinv.ok e he
    cases e with
    | emitAlias n t =>
      simp only [Event.nameOf] at hen
      subst hen
      simp [evOk, hmiss] at hok
    | emitEnum n vs =>
      simp only [Event.nameOf] at hen
      subst hen
      simp [evOk, hmiss] at hok
    | emitStruct n ms2 =>
      simp only [Event.nameOf] at hen
      subst hen
      simp [evOk, hmiss] at hok
    | notFound n =>
      simp only [Event.nameOf] at hen
      subst hen
      rfl
  · simp only [lookupFuel, if_neg hmk, hmiss]

/-- Witness for C3 on the one-struct catalog whose member type is absent. -/
theorem resolver_missing_member_type_witness :
    2 ≤ 2 ∧
    (lookupFuel 2 "S" missCat []).1 = true ∧
    Event.emitStruct "S" [⟨"a", "Missing", none⟩] ∈ (lookupFuel 2 "S" missCat []).2.2 ∧
    (evNames (lookupFuel 2 "S" missCat []).2.2).count "Missing" = 1 ∧
    (lookupFuel 2 "Missing" missCat []).1 = false :=
  have h := resolver_missing_member_type 2 "S" missCat [] [⟨"a", "Missing", none⟩]
      ⟨"a", "Missing", none⟩ (by decide) rfl (by decide) rfl (by decide) (by decide)
  ⟨by decide, h.1, h.2.1, h.2.2.1, h.2.2.2.2⟩

/-- C4: tokenizing an input with an unterminated string literal reaches the
    source's `unreachable!()` in `Tokenizer::string` — modelled as the fatal
    `unterminatedString` outcome that yields no token stream at all — rather
    than any recoverable malformed-literal error. -/
theorem unterminated_literal_panics :
    tokenize "\"abc" = Except.error TokPanic.unterminatedString := rfl

/-- C5: on a closing bracket with no matching opener the segmenter's balance
    goes negative and the loop continues silently — no statement is ever
    completed (the later top-level `";"` tokens no longer fire at balance
    zero) and the state carries no error of any kind, contradicting the
    required surfacing of an unbalanced-nesting error. -/
theorem negative_balance_ignored :
    (segment [")", ";", "a", ";"]).balance = -1 ∧
    (segment [")", ";", "a", ";"]).stmts = [] ∧
    (segment [")", ";", "a", ";"]).statement = [")", ";", "a", ";"] :=
  ⟨rfl, rfl, rfl⟩

/-- C6 counterexample: the two key orders `["A", "B"]` and `["B", "A"]`
    enumerate the same catalog keys (they are permutations of each other),
    both are admissible iteration orders of the source's `HashMap`, and they
    produce different emission sequences — so two runs of the program need
    not emit in the same order. -/
theorem run_order_not_deterministic :
    List.Perm ["A", "B"] ["B", "A"] ∧
    runEmit ["A", "B"] catAB ≠ runEmit ["B", "A"] catAB :=
  ⟨List.Perm.swap "B" "A" [], by decide⟩

/-- C6 (amended): for a fixed catalog-key iteration order the emitted
    sequence is the deterministic function `runEmit` of the input, and the
    top-level emission order follows that iteration order — here each of the
    two orders of the two-alias catalog yields its own output order. -/
theorem run_order_follows_key_order :
    runEmit ["A", "B"] catAB = [Event.emitAlias "A" "x", Event.emitAlias "B" "y"] ∧
    runEmit ["B", "A"] catAB = [Event.emitAlias "B" "y", Event.emitAlias "A" "x"] :=
  ⟨rfl, rfl⟩

/-- C7: maximal-munch tokenization by one-character lookahead on the claimed
    inputs, and single-character punctuation as one-token units. -/
theorem tokenizer_maximal_munch :
    tokenize "x->y" = .ok ["x", "->", "y"] ∧
    tokenize "a<<=b" = .ok ["a", "<<=", "b"] ∧
    tokenize "a<b" = .ok ["a", "<", "b"] ∧
    tokenize "a<<b" = .ok ["a", "<<", "b"] ∧
    tokenize "a,b" = .ok ["a", ",", "b"] :=
  ⟨rfl, rfl, rfl, rfl, rfl⟩

/-- C8 counterexample: on a struct body containing a nested braced field the
    source splits at every `";"` token (`slice::split`), not only at
    top-level ones — the split differs from the spec-modelled top-level
    split, and the resulting members cut through the nested braces. -/
theorem struct_body_split_not_toplevel :
    parseMembers ["struct", "\x7b", "int", "x", ";", "\x7d", "inner", ";"]
      = .ok [⟨"x", "struct~\x7b~int", none⟩, ⟨"inner", "\x7d", none⟩] ∧
    (splitTopLevel ";" ["struct", "\x7b", "int", "x", ";", "\x7d", "inner", ";"]).filter
        (fun l => !l.isEmpty)
      = [["struct", "\x7b", "int", "x", ";", "\x7d", "inner"]] ∧
    ["struct", "\x7b", "int", "x", ";", "\x7d", "inner", ";"].splitOn ";"
      ≠ splitTopLevel ";" ["struct", "\x7b", "int", "x", ";", "\x7d", "inner", ";"] :=
  ⟨rfl, rfl, by decide⟩

/-- C8 (amended): classifying `typedef struct { int a ; } Foo ;` registers a
    Struct named `Foo` with the single member `(a, int, no dimension)`;
    struct bodies are split on every `";"` token (regardless of bracket
    nesting, as the nested-struct example shows) and empty fields are
    dropped. -/
theorem classify_typedef_struct :
    parseStatement ["typedef", "struct", "\x7b", "int", "a", ";", "\x7d", "Foo", ";"] []
      = .ok ([("Foo", Stmt.structDef [⟨"a", "int", none⟩])], []) ∧
    parseStatement
        ["typedef", "struct", "\x7b", "struct", "\x7b", "int", "x", ";", "\x7d",
          "inner", ";", "\x7d", "N", ";"] []
      = .ok ([("N", Stmt.structDef
          [⟨"x", "struct~\x7b~int", none⟩, ⟨"inner", "\x7d", none⟩])], []) ∧
    parseMembers ["int", "a", ";", ";"] = .ok [⟨"a", "int", none⟩] :=
  ⟨rfl, rfl, rfl⟩

/-- C9: classifying `typedef enum { A = 1 , B } E ;` registers an Enum named
    `E` with the ordered values `(A, explicit "1")` then `(B, none)`; a field
    without an equals sign always parses to a value with no explicit value
    text, so omissions are preserved and never computed. -/
theorem classify_typedef_enum :
    parseStatement ["typedef", "enum", "\x7b", "A", "=", "1", ",", "B", "\x7d", "E", ";"] []
      = .ok ([("E", Stmt.enumDef [⟨"A", some "1"⟩, ⟨"B", none⟩])], []) ∧
    (∀ n : String, tryParseValue [n] = some ⟨n, none⟩) :=
  ⟨rfl, fun n => rfl⟩

/-- C10: classification is not total — a top-level statement opening with
    `"("` and closing with `")"` drives `try_parse_function` into the
    `pos - 1` underflow, and a struct field opening with `"["` and closing
    with `"]"` drives `try_parse_member` into the `pos - 1` underflow; both
    are panics, not unrecognized-statement diagnostics. -/
theorem classifier_panics_on_index_underflow :
    parseStatement ["(", ")"] [] = .error "try_parse_function: index underflow" ∧
    parseStatement ["typedef", "struct", "\x7b", "[", "]", "\x7d", "X", ";"] []
      = .error "try_parse_member: index underflow" :=
  ⟨rfl, rfl⟩

end CParser
